import Mathlib

/-!
# get_mouse_pos.c

A shallow embedding of the one function of `get_mouse_pos.c`:

    int main() {
        CGEventRef event = CGEventCreate(NULL);
        CGPoint cursor = CGEventGetLocation(event);
        CFRelease(event);
        printf("%.0f,%.0f\n", cursor.x, cursor.y);
        return 0;
    }

The three Quartz / CoreFoundation calls and `printf` are library code.  The
library calls are described by a `Platform` (what they answer in one run); the
`%.0f` conversion of `printf` is the exact IEEE 754 binary64 conversion of the
C library in the default rounding mode.  `main` itself is the five statements
above, written in a small monad that logs every call it makes.
-/

namespace GetMousePos

/-! ## Data model -/

/-- The type `CGFloat` is the C type `double` on 64-bit Apple platforms: an
IEEE 754 binary64 value given by its three bit fields (`sign` 1 bit, `expo`
11 bits, `frac` 52 bits). -/
structure CGFloat where
  sign : Bool
  expo : Nat
  frac : Nat
deriving DecidableEq

/-- The type `CGPoint` of CoreGraphics: `struct CGPoint { CGFloat x; CGFloat y; }`. -/
structure CGPoint where
  x : CGFloat
  y : CGFloat
deriving DecidableEq

/-- The event object a valid `CGEventRef` refers to; the only attribute `main`
reads from it is its location. -/
structure CGEvent where
  location : CGPoint
deriving DecidableEq

/-- A `CGEventRef` is a pointer: `none` is `NULL`, `some e` refers to `e`. -/
abbrev CGEventRef := Option CGEvent

namespace CGFloat

/-- Neither an infinity nor a NaN (exponent field not all ones). -/
def isFinite (d : CGFloat) : Prop := d.expo < 2047

instance (d : CGFloat) : Decidable d.isFinite := by
  unfold isFinite; infer_instance

/-- Integer significand: the hidden bit is set except for zero and
subnormals. -/
def significand (d : CGFloat) : Nat :=
  if d.expo = 0 then d.frac else 2 ^ 52 + d.frac

/-- Effective biased exponent (subnormals share the exponent of the smallest
normal numbers). -/
def scale (d : CGFloat) : Nat :=
  if d.expo = 0 then 1 else d.expo

/-- Absolute value of a finite double, `significand * 2 ^ (scale - 1075)`. -/
def magnitude (d : CGFloat) : ℚ :=
  if 1075 ≤ d.scale then ((d.significand * 2 ^ (d.scale - 1075) : Nat) : ℚ)
  else (d.significand : ℚ) / ((2 ^ (1075 - d.scale) : Nat) : ℚ)

/-- The real number a finite double denotes. -/
def toRat (d : CGFloat) : ℚ :=
  if d.sign then - d.magnitude else d.magnitude

end CGFloat

/-! ## The `%.0f` conversion of `printf` -/

/-- The integer nearest to `m / 2 ^ k`, a tie going to the even neighbour
(the default IEEE 754 rounding direction, which `main` never changes). -/
def roundHalfEven (m k : Nat) : Nat :=
  let q := m / 2 ^ k
  let r := m % 2 ^ k
  if 2 * r < 2 ^ k then q
  else if 2 ^ k < 2 * r then q + 1
  else if q % 2 = 0 then q else q + 1

/-- The magnitude of a finite double rounded to zero decimal places. -/
def roundedMagnitude (d : CGFloat) : Nat :=
  if 1075 ≤ d.scale then d.significand * 2 ^ (d.scale - 1075)
  else roundHalfEven d.significand (1075 - d.scale)

/-- What the C library prints for one `%.0f` directive (ISO C 7.21.6.1, with
the correct rounding of IEC 60559, as in Apple's libc): a minus sign when the
sign bit is set, then the decimal digits of the rounded magnitude and no
decimal point; an infinity prints as `inf` with its sign, a NaN as `nan`. -/
def fmt_f0 (d : CGFloat) : List Char :=
  if d.expo < 2047 then
    (if d.sign then ['-'] else []) ++ Nat.toDigits 10 (roundedMagnitude d)
  else if d.frac = 0 then
    (if d.sign then ['-'] else []) ++ ['i', 'n', 'f']
  else ['n', 'a', 'n']

/-- The text `printf` produces for a format string and its `double` arguments:
each `%.0f` directive consumes one argument, every other character is copied. -/
def printfText : List Char → List CGFloat → List Char
  | '%' :: '.' :: '0' :: 'f' :: rest, a :: args => fmt_f0 a ++ printfText rest args
  | c :: rest, args => c :: printfText rest args
  | [], _ => []

/-! ## The platform and the process -/

/-- What the library answers during one run.  `newEvent` is the result of
`CGEventCreate(NULL)` (`none` when it fails).  A valid event is read and
released normally.  The source passes the handle on without testing it, so the
platform also says what the two calls do with `NULL`: `locationOfNull` is the
point `CGEventGetLocation(NULL)` returns (`none`: the call traps), and
`releaseOfNullReturns` says whether `CFRelease(NULL)` returns (CoreFoundation
documents that it does not: the process is killed). -/
structure Platform where
  newEvent : CGEventRef
  locationOfNull : Option CGPoint
  releaseOfNullReturns : Bool

/-- One observable step of a run, in program order. -/
inductive Event where
  | created (ret : CGEventRef)
  | located (arg : CGEventRef) (ret : Option CGPoint)
  | released (arg : CGEventRef) (returned : Bool)
  | printed (text : List Char)
  | returned (status : Int)
deriving DecidableEq

/-- How the process ends: `main` returned a status, or the process was killed
inside a library call. -/
inductive Outcome where
  | exited (status : Int)
  | killed
deriving DecidableEq

/-- A computation of the process: it reads the platform, appends to the log of
events so far, and either yields a value or traps (`none`). -/
def Proc (α : Type) : Type := Platform → List Event → List Event × Option α

/-- Sequencing: a trap stops the process. -/
def Proc.bind {α β : Type} (m : Proc α) (f : α → Proc β) : Proc β :=
  fun P log =>
    match m P log with
    | (log1, some a) => f a P log1
    | (log1, none) => (log1, none)

instance : Monad Proc where
  pure a := fun _ log => (log, some a)
  bind := Proc.bind

/-- The call `CGEventCreate(NULL)`. -/
def CGEventCreate : Proc CGEventRef :=
  fun P log => (log ++ [Event.created P.newEvent], some P.newEvent)

/-- The call `CGEventGetLocation(event)`. -/
def CGEventGetLocation (event : CGEventRef) : Proc CGPoint :=
  fun P log =>
    let ret := match event with
      | some e => some e.location
      | none => P.locationOfNull
    (log ++ [Event.located event ret], ret)

/-- The call `CFRelease(cf)`. -/
def CFRelease (cf : CGEventRef) : Proc Unit :=
  fun P log =>
    let ok := cf.isSome || P.releaseOfNullReturns
    (log ++ [Event.released cf ok], if ok then some () else none)

/-- The call `printf(format, ...)` with `double` arguments, writing to standard
output. -/
def printf (format : String) (args : List CGFloat) : Proc Unit :=
  fun _ log => (log ++ [Event.printed (printfText format.toList args)], some ())

/-- The function `main` of `get_mouse_pos.c`, statement by statement. -/
def main : Proc Int := do
  let event ← CGEventCreate
  let cursor ← CGEventGetLocation event
  CFRelease event
  printf "%.0f,%.0f\n" [cursor.x, cursor.y]
  return 0

/-- A finished run: all events in order and the way the process ended. -/
structure Run where
  events : List Event
  outcome : Outcome
deriving DecidableEq

/-- Run the program on a platform from an empty log. -/
def exec (P : Platform) : Run :=
  match main P [] with
  | (log, some status) => ⟨log ++ [Event.returned status], Outcome.exited status⟩
  | (log, none) => ⟨log, Outcome.killed⟩

/-- Standard output after a sequence of events: everything printed so far. -/
def stdoutOf : List Event → List Char
  | [] => []
  | Event.printed text :: rest => text ++ stdoutOf rest
  | _ :: rest => stdoutOf rest

/-- Standard output of a finished run. -/
def Run.stdout (r : Run) : List Char := stdoutOf r.events

/-- The coordinate line of a point: its `x` converted by `%.0f`, a comma, its
`y` converted by `%.0f`, and a newline. -/
def coordLine (p : CGPoint) : List Char :=
  fmt_f0 p.x ++ [','] ++ fmt_f0 p.y ++ ['\n']

/-! ## Reading the output back -/

/-- The number a string of decimal digits denotes. -/
def readNat (s : List Char) : Nat :=
  s.foldl (fun a c => 10 * a + (c.toNat - 48)) 0

/-- The integer a signed decimal numeral denotes. -/
def readInt : List Char → Int
  | [] => 0
  | c :: s => if c = '-' then - (readNat s : Int) else (readNat (c :: s) : Int)

/-- Regular expression `-?`: skip one optional minus sign. -/
def skipMinus : List Char → List Char
  | [] => []
  | c :: s => if c = '-' then s else c :: s

/-- Regular expression `\d+`: skip one or more decimal digits (as many as
there are), or fail. -/
def skipDigits : List Char → Option (List Char)
  | [] => none
  | c :: s => if c.isDigit then some (s.dropWhile Char.isDigit) else none

/-- The regular expression `^-?\d+,-?\d+\n$` as a matcher over the whole
text. -/
def matchesCoordLine (s : List Char) : Bool :=
  match skipDigits (skipMinus s) with
  | some (c :: t) =>
    c = ',' &&
      (match skipDigits (skipMinus t) with
       | some rest => rest = ['\n']
       | none => false)
  | _ => false

/-! ## Concrete values used below -/

/-- The double `0.0`. -/
def zero : CGFloat := ⟨false, 0, 0⟩

/-- The double `-0.0`. -/
def negZero : CGFloat := ⟨true, 0, 0⟩

/-- A platform on which the query succeeds and reports `(x, y)`. -/
def reporting (x y : CGFloat) : Platform := ⟨some ⟨⟨x, y⟩⟩, none, false⟩

/-- Event creation fails, `CGEventGetLocation(NULL)` answers the zero point and
`CFRelease(NULL)` traps, as CoreFoundation documents. -/
def nullTrapping : Platform := ⟨none, some ⟨zero, zero⟩, false⟩

/-- Is this event a write to standard output? -/
def Event.isPrinted : Event → Bool
  | Event.printed _ => true
  | _ => false

/-- Is this event a call of `CFRelease`? -/
def Event.isReleased : Event → Bool
  | Event.released _ _ => true
  | _ => false

/-! ## The four shapes of a run -/

theorem printfText_main (x y : CGFloat) :
    printfText "%.0f,%.0f\n".toList [x, y] = coordLine ⟨x, y⟩ := by
  simp [printfText, coordLine]

theorem exec_of_valid (P : Platform) (e : CGEvent) (h : P.newEvent = some e) :
    exec P = ⟨[Event.created (some e), Event.located (some e) (some e.location),
               Event.released (some e) true, Event.printed (coordLine e.location),
               Event.returned 0], Outcome.exited 0⟩ := by
  simp [exec, main, bind, Proc.bind, CGEventCreate, CGEventGetLocation, CFRelease, printf, h,
    pure, printfText, coordLine]

theorem exec_of_null_ok (P : Platform) (p : CGPoint) (h : P.newEvent = none)
    (hl : P.locationOfNull = some p) (hr : P.releaseOfNullReturns = true) :
    exec P = ⟨[Event.created none, Event.located none (some p),
               Event.released none true, Event.printed (coordLine p),
               Event.returned 0], Outcome.exited 0⟩ := by
  simp [exec, main, bind, Proc.bind, CGEventCreate, CGEventGetLocation, CFRelease, printf, h,
    hl, hr, pure, printfText, coordLine]

theorem exec_of_null_release_trap (P : Platform) (p : CGPoint) (h : P.newEvent = none)
    (hl : P.locationOfNull = some p) (hr : P.releaseOfNullReturns = false) :
    exec P = ⟨[Event.created none, Event.located none (some p),
               Event.released none false], Outcome.killed⟩ := by
  simp [exec, main, bind, Proc.bind, CGEventCreate, CGEventGetLocation, CFRelease, printf, h,
    hl, hr, pure]

theorem exec_of_null_locate_trap (P : Platform) (h : P.newEvent = none)
    (hl : P.locationOfNull = none) :
    exec P = ⟨[Event.created none, Event.located none none], Outcome.killed⟩ := by
  simp [exec, main, bind, Proc.bind, CGEventCreate, CGEventGetLocation, CFRelease, printf, h,
    hl, pure]

/-- Every run has one of the four shapes. -/
theorem exec_cases (P : Platform) :
    (∃ e, P.newEvent = some e ∧
      exec P = ⟨[Event.created (some e), Event.located (some e) (some e.location),
               Event.released (some e) true, Event.printed (coordLine e.location),
               Event.returned 0], Outcome.exited 0⟩) ∨
    (∃ p, P.newEvent = none ∧ P.locationOfNull = some p ∧ P.releaseOfNullReturns = true ∧
      exec P = ⟨[Event.created none, Event.located none (some p),
               Event.released none true, Event.printed (coordLine p),
               Event.returned 0], Outcome.exited 0⟩) ∨
    (∃ p, P.newEvent = none ∧ P.locationOfNull = some p ∧ P.releaseOfNullReturns = false ∧
      exec P = ⟨[Event.created none, Event.located none (some p),
               Event.released none false], Outcome.killed⟩) ∨
    (P.newEvent = none ∧ P.locationOfNull = none ∧
      exec P = ⟨[Event.created none, Event.located none none], Outcome.killed⟩) := by
  cases h : P.newEvent with
  | some e => exact Or.inl ⟨e, rfl, exec_of_valid P e h⟩
  | none =>
    cases hl : P.locationOfNull with
    | none => exact Or.inr (Or.inr (Or.inr ⟨rfl, rfl, exec_of_null_locate_trap P h hl⟩))
    | some p =>
      cases hr : P.releaseOfNullReturns with
      | true => exact Or.inr (Or.inl ⟨p, rfl, rfl, rfl, exec_of_null_ok P p h hl hr⟩)
      | false =>
        exact Or.inr (Or.inr (Or.inl ⟨p, rfl, rfl, rfl, exec_of_null_release_trap P p h hl hr⟩))

theorem coordLine_ne_nil (p : CGPoint) : coordLine p ≠ [] := by
  simp [coordLine]

theorem roundHalfEven_zero (k : Nat) : roundHalfEven 0 k = 0 := by
  simp [roundHalfEven]

theorem stdout_of_valid (P : Platform) (e : CGEvent) (h : P.newEvent = some e) :
    (exec P).stdout = coordLine e.location := by
  simp [exec_of_valid P e h, Run.stdout, stdoutOf]

/-! ## Decimal digits -/

theorem digitChar_spec (k : Nat) (hk : k < 10) :
    (Nat.digitChar k).isDigit = true ∧ (Nat.digitChar k).toNat - 48 = k ∧
      Nat.digitChar k ≠ '-' := by
  interval_cases k <;> decide

theorem readNat_append (a b : List Char) :
    readNat (a ++ b) = b.foldl (fun a c => 10 * a + (c.toNat - 48)) (readNat a) := by
  simp [readNat, List.foldl_append]

theorem toDigitsCore_spec (fuel : Nat) : ∀ (n : Nat) (ds : List Char), n < fuel →
    ∃ c cs, Nat.toDigitsCore 10 fuel n ds = (c :: cs) ++ ds ∧
      (∀ x ∈ c :: cs, x.isDigit = true) ∧ c ≠ '-' ∧ readNat (c :: cs) = n := by
  induction fuel with
  | zero => intro n ds h; omega
  | succ fuel ih =>
    intro n ds h
    have hd := digitChar_spec (n % 10) (Nat.mod_lt _ (by decide))
    by_cases h0 : n / 10 = 0
    · refine ⟨Nat.digitChar (n % 10), [], ?_, ?_, hd.2.2, ?_⟩
      · simp [Nat.toDigitsCore, h0]
      · simpa using hd.1
      · have hn : n % 10 = n := by omega
        have h1 := hd.2.1
        simp only [readNat, List.foldl]
        omega
    · obtain ⟨c, cs, heq, hall, hc, hval⟩ :=
        ih (n / 10) (Nat.digitChar (n % 10) :: ds) (by omega)
      refine ⟨c, cs ++ [Nat.digitChar (n % 10)], ?_, ?_, hc, ?_⟩
      · simp [Nat.toDigitsCore, h0, heq]
      · intro x hx
        simp only [List.mem_cons, List.mem_append, List.mem_singleton, List.not_mem_nil,
          or_false] at hx
        rcases hx with hx | hx | hx
        · exact hall x (by simp [hx])
        · exact hall x (by simp [hx])
        · rw [hx]; exact hd.1
      · have : c :: (cs ++ [Nat.digitChar (n % 10)]) = (c :: cs) ++ [Nat.digitChar (n % 10)] := by
          simp
        rw [this, readNat_append, hval]
        simp [hd.2.1]
        omega

/-- The decimal numeral of `n`: at least one character, digits only, and it
reads back as `n`. -/
theorem toDigits_spec (n : Nat) :
    ∃ c cs, Nat.toDigits 10 n = c :: cs ∧ (∀ x ∈ c :: cs, x.isDigit = true) ∧ c ≠ '-' ∧
      readNat (c :: cs) = n := by
  obtain ⟨c, cs, h, hall, hc, hv⟩ := toDigitsCore_spec (n + 1) n [] (by omega)
  exact ⟨c, cs, by simpa [Nat.toDigits] using h, hall, hc, hv⟩

/-! ## The shape of the printed line (C1) -/

theorem dropWhile_digits (cs : List Char) (r : Char) (rest : List Char)
    (hall : ∀ x ∈ cs, x.isDigit = true) (hr : r.isDigit = false) :
    (cs ++ r :: rest).dropWhile Char.isDigit = r :: rest := by
  induction cs with
  | nil => simp [List.dropWhile, hr]
  | cons c cs ih =>
    have hc : c.isDigit = true := hall c (by simp)
    simp only [List.cons_append, List.dropWhile, hc]
    exact ih (fun x hx => hall x (by simp [hx]))

theorem skip_signed_digits (neg : Bool) (c : Char) (cs : List Char) (r : Char)
    (rest : List Char) (hall : ∀ x ∈ c :: cs, x.isDigit = true) (hc : c ≠ '-')
    (hr : r.isDigit = false) :
    skipDigits (skipMinus ((if neg then ['-'] else []) ++ (c :: cs) ++ r :: rest))
      = some (r :: rest) := by
  have hcd : c.isDigit = true := hall c (by simp)
  have htail := dropWhile_digits cs r rest (fun x hx => hall x (by simp [hx])) hr
  cases neg <;> simp [skipMinus, skipDigits, hc, hcd, htail]

/-- A finite double prints as an optional minus sign followed by the decimal
numeral of its rounded magnitude. -/
theorem fmt_f0_finite (d : CGFloat) (h : d.isFinite) :
    ∃ c cs, fmt_f0 d = (if d.sign then ['-'] else []) ++ (c :: cs) ∧
      (∀ x ∈ c :: cs, x.isDigit = true) ∧ c ≠ '-' ∧ readNat (c :: cs) = roundedMagnitude d := by
  obtain ⟨c, cs, heq, hall, hc, hv⟩ := toDigits_spec (roundedMagnitude d)
  refine ⟨c, cs, ?_, hall, hc, hv⟩
  have h' : d.expo < 2047 := h
  simp [fmt_f0, h', heq]

theorem matchesCoordLine_coordLine (p : CGPoint) (hx : p.x.isFinite) (hy : p.y.isFinite) :
    matchesCoordLine (coordLine p) = true := by
  obtain ⟨c, cs, hfx, hallx, hcx, -⟩ := fmt_f0_finite p.x hx
  obtain ⟨e, es, hfy, hally, hcy, -⟩ := fmt_f0_finite p.y hy
  have h1 : skipDigits (skipMinus (coordLine p))
      = some (',' :: (fmt_f0 p.y ++ ['\n'])) := by
    have := skip_signed_digits p.x.sign c cs ',' (fmt_f0 p.y ++ ['\n']) hallx hcx (by decide)
    simpa [coordLine, hfx] using this
  have h2 : skipDigits (skipMinus (fmt_f0 p.y ++ ['\n'])) = some ['\n'] := by
    have := skip_signed_digits p.y.sign e es '\n' [] hally hcy (by decide)
    simpa [hfy] using this
  simp [matchesCoordLine, h1, h2]

/-- The matcher accepts well-formed coordinate lines and rejects text with
surrounding whitespace, a missing field, a missing or doubled newline, or a
non-numeric field. -/
theorem matchesCoordLine_examples :
    matchesCoordLine "124,45\n".toList = true ∧
      matchesCoordLine "-0,10\n".toList = true ∧
      matchesCoordLine "124,45".toList = false ∧
      matchesCoordLine " 124,45\n".toList = false ∧
      matchesCoordLine "124,\n".toList = false ∧
      matchesCoordLine "124,45\n\n".toList = false ∧
      matchesCoordLine "inf,45\n".toList = false := by
  decide

/-- The finiteness assumption matters: an infinite coordinate is printed as
`inf`, and the line no longer matches. -/
theorem infinite_coordinate_line :
    (exec (reporting ⟨false, 2047, 0⟩ ⟨false, 1023, 0⟩)).stdout = "inf,1\n".toList ∧
      matchesCoordLine (exec (reporting ⟨false, 2047, 0⟩ ⟨false, 1023, 0⟩)).stdout = false := by
  decide

/-- C1: whenever the query succeeds and reports finite coordinates, standard
output as a whole matches `^-?\d+,-?\d+\n$`: an optional minus sign, one or
more decimal digits, a comma, an optional minus sign, one or more decimal
digits and one newline, with nothing before, between or after. -/
theorem C1_output_matches_pattern (P : Platform) (e : CGEvent) (h : P.newEvent = some e)
    (hx : e.location.x.isFinite) (hy : e.location.y.isFinite) :
    matchesCoordLine (exec P).stdout = true := by
  rw [stdout_of_valid P e h]
  exact matchesCoordLine_coordLine e.location hx hy

/-- C1 at the reported position `(123.7, 45.2)`. -/
theorem C1_output_matches_pattern_witness :
    matchesCoordLine
      (exec (reporting ⟨false, 1029, 4201014027406541⟩ ⟨false, 1028, 1857734846290330⟩)).stdout
      = true :=
  C1_output_matches_pattern _ ⟨⟨⟨false, 1029, 4201014027406541⟩, ⟨false, 1028, 1857734846290330⟩⟩⟩
    rfl (by decide) (by decide)


/-! ## Rounding -/

theorem round_aux (m D q r : Nat) (hD : 0 < D) (hm : m = D * q + r) (hr : r < D) :
    |(((if 2 * r < D then q else if D < 2 * r then q + 1
          else if q % 2 = 0 then q else q + 1 : Nat)) : ℚ) - (m : ℚ) / (D : ℚ)| ≤ 1 / 2 ∧
      (|(((if 2 * r < D then q else if D < 2 * r then q + 1
          else if q % 2 = 0 then q else q + 1 : Nat)) : ℚ) - (m : ℚ) / (D : ℚ)| = 1 / 2 →
        (if 2 * r < D then q else if D < 2 * r then q + 1
          else if q % 2 = 0 then q else q + 1) % 2 = 0) := by
  have hDq : (0 : ℚ) < (D : ℚ) := by exact_mod_cast hD
  have hmq : (m : ℚ) / (D : ℚ) = (q : ℚ) + (r : ℚ) / (D : ℚ) := by
    have : (m : ℚ) = (D : ℚ) * (q : ℚ) + (r : ℚ) := by exact_mod_cast hm
    rw [this]
    field_simp
    ring
  have ht0 : (0 : ℚ) ≤ (r : ℚ) / (D : ℚ) := by positivity
  rw [hmq]
  split_ifs with h1 h2 h3
  · have ht : (r : ℚ) / (D : ℚ) < 1 / 2 := by
      rw [div_lt_iff₀ hDq]
      have : ((2 * r : Nat) : ℚ) < (D : ℚ) := by exact_mod_cast h1
      push_cast at this
      linarith
    have habs : |(q : ℚ) - ((q : ℚ) + (r : ℚ) / (D : ℚ))| < 1 / 2 := by
      rw [abs_lt]; constructor <;> linarith
    exact ⟨le_of_lt habs, fun h => absurd h (ne_of_lt habs)⟩
  · have ht : 1 / 2 < (r : ℚ) / (D : ℚ) := by
      rw [lt_div_iff₀ hDq]
      have : (D : ℚ) < ((2 * r : Nat) : ℚ) := by exact_mod_cast h2
      push_cast at this
      linarith
    have ht1 : (r : ℚ) / (D : ℚ) < 1 := by
      rw [div_lt_iff₀ hDq]
      have : (r : ℚ) < (D : ℚ) := by exact_mod_cast hr
      linarith
    have habs : |(((q + 1 : Nat) : ℚ)) - ((q : ℚ) + (r : ℚ) / (D : ℚ))| < 1 / 2 := by
      push_cast
      rw [abs_lt]; constructor <;> linarith
    exact ⟨le_of_lt habs, fun h => absurd h (ne_of_lt habs)⟩
  · have ht : (r : ℚ) / (D : ℚ) = 1 / 2 := by
      have h2r : 2 * r = D := by omega
      have : ((2 * r : Nat) : ℚ) = (D : ℚ) := by exact_mod_cast h2r
      push_cast at this
      field_simp
      linarith
    refine ⟨?_, fun _ => h3⟩
    rw [ht, abs_le]; constructor <;> linarith
  · have ht : (r : ℚ) / (D : ℚ) = 1 / 2 := by
      have h2r : 2 * r = D := by omega
      have : ((2 * r : Nat) : ℚ) = (D : ℚ) := by exact_mod_cast h2r
      push_cast at this
      field_simp
      linarith
    refine ⟨?_, fun _ => by omega⟩
    rw [ht]; push_cast
    rw [abs_le]; constructor <;> linarith

/-- The rounded quotient is a nearest integer, and an even one on a tie. -/
theorem roundHalfEven_near (m k : Nat) :
    |((roundHalfEven m k : Nat) : ℚ) - (m : ℚ) / ((2 ^ k : Nat) : ℚ)| ≤ 1 / 2 ∧
      (|((roundHalfEven m k : Nat) : ℚ) - (m : ℚ) / ((2 ^ k : Nat) : ℚ)| = 1 / 2 →
        roundHalfEven m k % 2 = 0) :=
  round_aux m (2 ^ k) (m / 2 ^ k) (m % 2 ^ k) (Nat.two_pow_pos k)
    (Nat.div_add_mod m (2 ^ k)).symm (Nat.mod_lt _ (Nat.two_pow_pos k))

/-- The rounded magnitude of a double is a nearest integer to its magnitude,
and an even one on a tie. -/
theorem roundedMagnitude_near (d : CGFloat) :
    |((roundedMagnitude d : Nat) : ℚ) - d.magnitude| ≤ 1 / 2 ∧
      (|((roundedMagnitude d : Nat) : ℚ) - d.magnitude| = 1 / 2 → roundedMagnitude d % 2 = 0) := by
  unfold roundedMagnitude CGFloat.magnitude
  split_ifs with h
  · rw [sub_self, abs_zero]
    exact ⟨by norm_num, fun h0 => absurd h0 (by norm_num)⟩
  · exact roundHalfEven_near _ _

theorem magnitude_nonneg (d : CGFloat) : 0 ≤ d.magnitude := by
  unfold CGFloat.magnitude
  split_ifs
  · exact Nat.cast_nonneg _
  · exact div_nonneg (Nat.cast_nonneg _) (Nat.cast_nonneg _)

/-- Reading back what `%.0f` printed gives the rounded magnitude with the sign
of the sign bit. -/
theorem readInt_fmt_f0 (d : CGFloat) (h : d.isFinite) :
    readInt (fmt_f0 d)
      = if d.sign then - (roundedMagnitude d : Int) else (roundedMagnitude d : Int) := by
  obtain ⟨c, cs, heq, -, hc, hv⟩ := fmt_f0_finite d h
  rw [heq]
  cases d.sign <;> simp [readInt, hc, hv]

/-- The integer printed for a finite double is a nearest integer to it, and an
even one when the double lies halfway between two integers. -/
theorem readInt_fmt_f0_near (d : CGFloat) (h : d.isFinite) :
    |((readInt (fmt_f0 d) : Int) : ℚ) - d.toRat| ≤ 1 / 2 ∧
      (|((readInt (fmt_f0 d) : Int) : ℚ) - d.toRat| = 1 / 2 → readInt (fmt_f0 d) % 2 = 0) := by
  have hn := roundedMagnitude_near d
  rw [readInt_fmt_f0 d h]
  unfold CGFloat.toRat
  cases d.sign
  · simp only [Bool.false_eq_true, if_false, Int.cast_natCast]
    refine ⟨hn.1, fun heq => ?_⟩
    have := hn.2 heq
    omega
  · simp only [if_true, Int.cast_neg, Int.cast_natCast]
    have habs : |(-((roundedMagnitude d : Nat) : ℚ)) - (- d.magnitude)|
        = |((roundedMagnitude d : Nat) : ℚ) - d.magnitude| := by
      rw [← abs_neg]; congr 1; ring
    rw [habs]
    refine ⟨hn.1, fun heq => ?_⟩
    have := hn.2 heq
    omega

/-! ## Rounding policy of the printed coordinates (C3, C9, C10) -/

theorem comma_not_mem_fmt_f0 (d : CGFloat) (h : d.isFinite) : ',' ∉ fmt_f0 d := by
  obtain ⟨c, cs, heq, hall, -, -⟩ := fmt_f0_finite d h
  rw [heq]
  intro hmem
  rw [List.mem_append] at hmem
  rcases hmem with hm | hm
  · cases hs : d.sign <;> simp [hs] at hm
  · have := hall ',' hm
    exact absurd this (by decide)

/-- On a successful query standard output splits at its only comma into the
two printed fields. -/
theorem stdout_fields (P : Platform) (e : CGEvent) (h : P.newEvent = some e) :
    (exec P).stdout = fmt_f0 e.location.x ++ [','] ++ fmt_f0 e.location.y ++ ['\n'] := by
  rw [stdout_of_valid P e h, coordLine]

theorem tie_of_near (n k : Int) (c : ℚ) (hc : c = (k : ℚ) + 1 / 2)
    (hn : |(n : ℚ) - c| ≤ 1 / 2) : |(n : ℚ) - c| = 1 / 2 := by
  rw [hc] at hn ⊢
  rw [abs_le] at hn
  have h1 : (k : ℚ) ≤ (n : ℚ) := by linarith [hn.1]
  have h2 : (n : ℚ) ≤ (k : ℚ) + 1 := by linarith [hn.2]
  have h1' : k ≤ n := by exact_mod_cast h1
  have h2' : n ≤ k + 1 := by exact_mod_cast h2
  have : n = k ∨ n = k + 1 := by omega
  rcases this with rfl | rfl
  · rw [show ((n : ℚ) - ((n : ℚ) + 1 / 2)) = -(1 / 2) by ring, abs_neg]
    exact abs_of_pos (by norm_num)
  · push_cast
    rw [show ((k : ℚ) + 1 - ((k : ℚ) + 1 / 2)) = 1 / 2 by ring]
    exact abs_of_pos (by norm_num)

/-- C3: for every finite coordinate pair the platform reports, the first
integer printed is a nearest integer to `x` and the second a nearest integer
to `y` (each within one half of its coordinate: rounding, not truncation, and
the same policy for both); and the reported position `(123.7, 45.2)`, that is
the two doubles nearest to these decimals, prints exactly `124,45` and a
newline. -/
theorem C3_nearest_integer :
    (∀ (P : Platform) (e : CGEvent), P.newEvent = some e →
      e.location.x.isFinite → e.location.y.isFinite →
      ∃ f1 f2, (exec P).stdout = f1 ++ [','] ++ f2 ++ ['\n'] ∧ ',' ∉ f1 ∧ ',' ∉ f2 ∧
        |((readInt f1 : Int) : ℚ) - e.location.x.toRat| ≤ 1 / 2 ∧
        |((readInt f2 : Int) : ℚ) - e.location.y.toRat| ≤ 1 / 2) ∧
    |(⟨false, 1029, 4201014027406541⟩ : CGFloat).toRat - 1237 / 10| ≤ 1 / 2 ^ 47 ∧
    |(⟨false, 1028, 1857734846290330⟩ : CGFloat).toRat - 452 / 10| ≤ 1 / 2 ^ 48 ∧
    (exec (reporting ⟨false, 1029, 4201014027406541⟩ ⟨false, 1028, 1857734846290330⟩)).stdout
      = ['1', '2', '4', ',', '4', '5', '\n'] := by
  refine ⟨?_, ?_, ?_, by decide⟩
  · intro P e h hx hy
    exact ⟨fmt_f0 e.location.x, fmt_f0 e.location.y, stdout_fields P e h,
      comma_not_mem_fmt_f0 _ hx, comma_not_mem_fmt_f0 _ hy,
      (readInt_fmt_f0_near _ hx).1, (readInt_fmt_f0_near _ hy).1⟩
  · norm_num [CGFloat.toRat, CGFloat.magnitude, CGFloat.scale, CGFloat.significand, abs_le]
  · norm_num [CGFloat.toRat, CGFloat.magnitude, CGFloat.scale, CGFloat.significand, abs_le]

/-- C3 at the reported position `(2.5, -0.25)`. -/
theorem C3_nearest_integer_witness :
    ∃ f1 f2, (exec (reporting ⟨false, 1024, 1125899906842624⟩ ⟨true, 1021, 0⟩)).stdout
        = f1 ++ [','] ++ f2 ++ ['\n'] ∧ ',' ∉ f1 ∧ ',' ∉ f2 ∧
      |((readInt f1 : Int) : ℚ) - (⟨false, 1024, 1125899906842624⟩ : CGFloat).toRat| ≤ 1 / 2 ∧
      |((readInt f2 : Int) : ℚ) - (⟨true, 1021, 0⟩ : CGFloat).toRat| ≤ 1 / 2 :=
  C3_nearest_integer.1 (reporting ⟨false, 1024, 1125899906842624⟩ ⟨true, 1021, 0⟩)
    ⟨⟨⟨false, 1024, 1125899906842624⟩, ⟨true, 1021, 0⟩⟩⟩ rfl (by decide) (by decide)

/-- C9: when a reported coordinate lies exactly halfway between two integers,
the printed integer is the even one of the two neighbours (round half to
even), not the one away from zero: `(0.5, 2.5)` prints `0,2` and `(1.5, 3.5)`
prints `2,4`, each followed by a newline. -/
theorem C9_ties_to_even :
    (∀ (P : Platform) (e : CGEvent), P.newEvent = some e →
      e.location.x.isFinite → e.location.y.isFinite →
      ∃ f1 f2, (exec P).stdout = f1 ++ [','] ++ f2 ++ ['\n'] ∧ ',' ∉ f1 ∧ ',' ∉ f2 ∧
        ((∃ k : Int, e.location.x.toRat = (k : ℚ) + 1 / 2) →
          readInt f1 % 2 = 0 ∧ |((readInt f1 : Int) : ℚ) - e.location.x.toRat| = 1 / 2) ∧
        ((∃ k : Int, e.location.y.toRat = (k : ℚ) + 1 / 2) →
          readInt f2 % 2 = 0 ∧ |((readInt f2 : Int) : ℚ) - e.location.y.toRat| = 1 / 2)) ∧
    (exec (reporting ⟨false, 1022, 0⟩ ⟨false, 1024, 1125899906842624⟩)).stdout
      = ['0', ',', '2', '\n'] ∧
    (exec (reporting ⟨false, 1023, 2251799813685248⟩ ⟨false, 1024, 3377699720527872⟩)).stdout
      = ['2', ',', '4', '\n'] := by
  refine ⟨?_, by decide, by decide⟩
  intro P e h hx hy
  refine ⟨fmt_f0 e.location.x, fmt_f0 e.location.y, stdout_fields P e h,
      comma_not_mem_fmt_f0 _ hx, comma_not_mem_fmt_f0 _ hy, ?_, ?_⟩
  · rintro ⟨k, hk⟩
    have hn := readInt_fmt_f0_near _ hx
    have ht := tie_of_near _ k _ hk hn.1
    exact ⟨hn.2 ht, ht⟩
  · rintro ⟨k, hk⟩
    have hn := readInt_fmt_f0_near _ hy
    have ht := tie_of_near _ k _ hk hn.1
    exact ⟨hn.2 ht, ht⟩

/-- C9 at the reported position `(0.5, 2.5)`: both printed integers are even. -/
theorem C9_ties_to_even_witness :
    ∃ f1 f2, (exec (reporting ⟨false, 1022, 0⟩ ⟨false, 1024, 1125899906842624⟩)).stdout
        = f1 ++ [','] ++ f2 ++ ['\n'] ∧ readInt f1 % 2 = 0 ∧ readInt f2 % 2 = 0 := by
  obtain ⟨f1, f2, hs, -, -, h1, h2⟩ :=
    C9_ties_to_even.1 (reporting ⟨false, 1022, 0⟩ ⟨false, 1024, 1125899906842624⟩)
      ⟨⟨⟨false, 1022, 0⟩, ⟨false, 1024, 1125899906842624⟩⟩⟩ rfl (by decide) (by decide)
  refine ⟨f1, f2, hs, (h1 ⟨0, ?_⟩).1, (h2 ⟨2, ?_⟩).1⟩
  · norm_num [CGFloat.toRat, CGFloat.magnitude, CGFloat.scale, CGFloat.significand]
  · norm_num [CGFloat.toRat, CGFloat.magnitude, CGFloat.scale, CGFloat.significand]

theorem roundHalfEven_eq_zero (m k : Nat) (h : 2 * m ≤ 2 ^ k) : roundHalfEven m k = 0 := by
  have hD : 0 < 2 ^ k := Nat.two_pow_pos k
  unfold roundHalfEven
  generalize 2 ^ k = D at hD h
  have hlt : m < D := by omega
  simp only [Nat.div_eq_of_lt hlt, Nat.mod_eq_of_lt hlt]
  split_ifs <;> omega

theorem roundedMagnitude_eq_zero (d : CGFloat) (h : d.magnitude ≤ 1 / 2) :
    roundedMagnitude d = 0 := by
  unfold CGFloat.magnitude at h
  unfold roundedMagnitude
  split_ifs at h ⊢ with hs
  · have h1 : ((d.significand * 2 ^ (d.scale - 1075) : Nat) : ℚ) < 1 := by linarith
    have h2 : d.significand * 2 ^ (d.scale - 1075) < 1 := by exact_mod_cast h1
    omega
  · have hD : 0 < 2 ^ (1075 - d.scale) := Nat.two_pow_pos _
    have hDq : (0 : ℚ) < ((2 ^ (1075 - d.scale) : Nat) : ℚ) := by exact_mod_cast hD
    rw [div_le_iff₀ hDq] at h
    have h2 : ((2 * d.significand : Nat) : ℚ) ≤ ((2 ^ (1075 - d.scale) : Nat) : ℚ) := by
      push_cast
      push_cast at h
      linarith
    exact roundHalfEven_eq_zero _ _ (by exact_mod_cast h2)

/-- A finite double with the sign bit set and magnitude at most one half
prints as a minus sign and a zero. -/
theorem fmt_f0_minus_zero (d : CGFloat) (h : d.isFinite)
    (hr : (-(1 / 2) ≤ d.toRat ∧ d.toRat < 0) ∨ d = negZero) :
    fmt_f0 d = ['-', '0'] := by
  have hsm : d.sign = true ∧ d.magnitude ≤ 1 / 2 := by
    rcases hr with ⟨h1, h2⟩ | rfl
    · have hm := magnitude_nonneg d
      unfold CGFloat.toRat at h1 h2
      cases hs : d.sign
      · rw [hs] at h2
        simp only [Bool.false_eq_true, if_false] at h2
        linarith
      · rw [hs] at h1
        simp only [if_true] at h1
        exact ⟨rfl, by linarith⟩
    · refine ⟨rfl, ?_⟩
      simp [CGFloat.magnitude, negZero, CGFloat.scale, CGFloat.significand, -Nat.reducePow]
  have h' : d.expo < 2047 := h
  simp only [fmt_f0, hsm.1, if_true, h', roundedMagnitude_eq_zero d hsm.2]
  decide

/-- C10: every finite reported coordinate `c` with `-0.5 <= c < 0`, and
negative zero, is printed as the two characters `-0` rather than `0`, in the
first field as in the second; the reported position `(-0.25, 10)` prints
`-0,10` and a newline.  The text `-0` still reads as the integer 0 and matches
`-?\d+`, but it is not the canonical numeral `0`. -/
theorem C10_minus_zero :
    (∀ (P : Platform) (e : CGEvent), P.newEvent = some e →
      ((e.location.x.isFinite ∧
          ((-(1 / 2) ≤ e.location.x.toRat ∧ e.location.x.toRat < 0) ∨ e.location.x = negZero)) →
        (exec P).stdout = ['-', '0'] ++ [','] ++ fmt_f0 e.location.y ++ ['\n']) ∧
      ((e.location.y.isFinite ∧
          ((-(1 / 2) ≤ e.location.y.toRat ∧ e.location.y.toRat < 0) ∨ e.location.y = negZero)) →
        (exec P).stdout = fmt_f0 e.location.x ++ [','] ++ ['-', '0'] ++ ['\n'])) ∧
    (exec (reporting ⟨true, 1021, 0⟩ ⟨false, 1026, 1125899906842624⟩)).stdout
      = ['-', '0', ',', '1', '0', '\n'] ∧
    (⟨true, 1021, 0⟩ : CGFloat).toRat = -(1 / 4) ∧
    readInt ['-', '0'] = 0 ∧ ['-', '0'] ≠ Nat.toDigits 10 0 := by
  refine ⟨?_, by decide, ?_, by decide, by decide⟩
  · intro P e h
    constructor
    · rintro ⟨hf, hr⟩
      rw [stdout_fields P e h, fmt_f0_minus_zero _ hf hr]
    · rintro ⟨hf, hr⟩
      rw [stdout_fields P e h, fmt_f0_minus_zero _ hf hr]
  · norm_num [CGFloat.toRat, CGFloat.magnitude, CGFloat.scale, CGFloat.significand]

/-- C10 at the reported positions `(-0.5, -0.0)`. -/
theorem C10_minus_zero_witness :
    (exec (reporting ⟨true, 1022, 0⟩ negZero)).stdout = ['-', '0', ',', '-', '0', '\n'] := by
  have hx := (C10_minus_zero.1 (reporting ⟨true, 1022, 0⟩ negZero)
    ⟨⟨⟨true, 1022, 0⟩, negZero⟩⟩ rfl).1
      ⟨by decide, Or.inl (by
        norm_num [CGFloat.toRat, CGFloat.magnitude, CGFloat.scale, CGFloat.significand])⟩
  have hy : fmt_f0 negZero = ['-', '0'] := fmt_f0_minus_zero negZero (by decide) (Or.inr rfl)
  rw [hx, hy]
  rfl

/-! ## Failure handling (C2, C4, C8) -/

/-- C2: in every run in which event creation returns a null handle, nothing is
written to standard output and the process does not end with status 0.  `main`
has no branch for this: it passes the null handle on, and the process is
killed inside `CGEventGetLocation` or, at the latest, inside `CFRelease`, whose
documented behaviour on `NULL` is to trap; `printf` and `return 0` come after
both calls and are never reached. -/
theorem C2_null_handle_fails (P : Platform) (h : P.newEvent = none)
    (hcf : P.releaseOfNullReturns = false) :
    (exec P).stdout = [] ∧ (exec P).outcome ≠ Outcome.exited 0 ∧
      (exec P).outcome = Outcome.killed ∧
      (∀ text, Event.printed text ∉ (exec P).events) := by
  rcases exec_cases P with ⟨e, he, _⟩ | ⟨p, _, hl, hr, hx⟩ | ⟨p, _, hl, hr, hx⟩ | ⟨_, hl, hx⟩
  · rw [h] at he; cases he
  · rw [hcf] at hr; cases hr
  · simp [hx, Run.stdout, stdoutOf]
  · simp [hx, Run.stdout, stdoutOf]

/-- C2 at the platform on which event creation fails,
`CGEventGetLocation(NULL)` answers the zero point and `CFRelease(NULL)` traps. -/
theorem C2_null_handle_fails_witness :
    nullTrapping.newEvent = none ∧ nullTrapping.releaseOfNullReturns = false ∧
      (exec nullTrapping).stdout = [] ∧ (exec nullTrapping).outcome ≠ Outcome.exited 0 ∧
      (exec nullTrapping).outcome = Outcome.killed ∧
      (∀ text, Event.printed text ∉ (exec nullTrapping).events) :=
  ⟨rfl, rfl, C2_null_handle_fails nullTrapping rfl rfl⟩

/-- C4: whenever the query succeeds `main` returns status 0, and the return is
the last event of the run, directly after the coordinate line has been
written; `main` never returns any other status; and, `CFRelease` trapping on
`NULL` as documented, the exit status is 0 if and only if the query succeeded
(the handle is valid). -/
theorem C4_exit_status (P : Platform) :
    (∀ e, P.newEvent = some e →
        (exec P).outcome = Outcome.exited 0 ∧
        (exec P).events.drop 3 = [Event.printed (coordLine e.location), Event.returned 0]) ∧
    (P.releaseOfNullReturns = false →
        ((exec P).outcome = Outcome.exited 0 ↔ P.newEvent.isSome = true)) ∧
    (∀ status, (exec P).outcome = Outcome.exited status → status = 0) := by
  rcases exec_cases P with ⟨e, he, hx⟩ | ⟨p, he, hl, hr, hx⟩ | ⟨p, he, hl, hr, hx⟩ | ⟨he, hl, hx⟩
  · simp [hx, he]
  · simp [hx, he, hr]
  · simp [hx, he, hr]
  · simp [hx, he]

/-- C4 at the platform reporting the origin (status 0, line then return) and at
the platform on which event creation fails (status not 0). -/
theorem C4_exit_status_witness :
    ((exec (reporting zero zero)).outcome = Outcome.exited 0 ∧
      (exec (reporting zero zero)).events.drop 3
        = [Event.printed (coordLine ⟨zero, zero⟩), Event.returned 0]) ∧
    ((exec (reporting zero zero)).outcome = Outcome.exited 0 ↔
      (reporting zero zero).newEvent.isSome = true) ∧
    ((exec nullTrapping).outcome = Outcome.exited 0 ↔ nullTrapping.newEvent.isSome = true) :=
  ⟨(C4_exit_status (reporting zero zero)).1 ⟨⟨zero, zero⟩⟩ rfl,
   (C4_exit_status (reporting zero zero)).2.1 rfl,
   (C4_exit_status nullTrapping).2.1 rfl⟩

/-- C8, counterexample: after a failed event creation the null handle is
nevertheless passed to `CGEventGetLocation` and to `CFRelease`. -/
theorem C8_null_handle_is_read_and_released :
    nullTrapping.newEvent = none ∧
      (exec nullTrapping).events =
        [Event.created none, Event.located none (some ⟨zero, zero⟩),
         Event.released none false] ∧
      ¬ (∀ ev ∈ (exec nullTrapping).events,
          (∀ ret, ev ≠ Event.located none ret) ∧ (∀ ok, ev ≠ Event.released none ok)) := by
  refine ⟨rfl, by decide, ?_⟩
  intro h
  exact (h (Event.located none (some ⟨zero, zero⟩)) (by decide)).1 _ rfl

/-- C8, amended: `main` never tests the handle.  In every run the result of
`CGEventCreate`, valid or null, is passed first to `CGEventGetLocation` and
then, whenever that call returns, to `CFRelease`, exactly once; `CFRelease` is
never called more than once nor with another argument.  When the handle is
valid it is released exactly once, after the location has been read and before
the line is printed and `main` returns. -/
theorem C8_handle_lifetime (P : Platform) :
    (∃ ret, (exec P).events.take 2
        = [Event.created P.newEvent, Event.located P.newEvent ret]) ∧
    ((exec P).events.filter Event.isReleased).length ≤ 1 ∧
    (∀ arg ok, Event.released arg ok ∈ (exec P).events →
        arg = P.newEvent ∧ ∃ ret, (exec P).events.take 3
          = [Event.created arg, Event.located arg ret, Event.released arg ok]) ∧
    (∀ e, P.newEvent = some e →
        (exec P).events =
          [Event.created (some e), Event.located (some e) (some e.location),
           Event.released (some e) true, Event.printed (coordLine e.location),
           Event.returned 0]) ∧
    (∀ p, Event.located P.newEvent (some p) ∈ (exec P).events →
        ((exec P).events.filter Event.isReleased).length = 1 ∧
        ∃ ok, (exec P).events.take 3
          = [Event.created P.newEvent, Event.located P.newEvent (some p),
             Event.released P.newEvent ok]) ∧
    (∀ p, P.newEvent = none → P.locationOfNull = some p →
        (exec P).events.take 3
          = [Event.created none, Event.located none (some p),
             Event.released none P.releaseOfNullReturns]) := by
  rcases exec_cases P with ⟨e, he, hx⟩ | ⟨p, he, hl, hr, hx⟩ | ⟨p, he, hl, hr, hx⟩ | ⟨he, hl, hx⟩
  · simp [hx, he, Event.isReleased]
  · simp [hx, he, hl, hr, Event.isReleased]
  · simp [hx, he, hl, hr, Event.isReleased]
  · simp [hx, he, hl, Event.isReleased]

/-- C8, amended, at the platform reporting the origin (the valid handle is
read, then released once) and at the platform on which event creation fails
(the null handle is read, then passed to `CFRelease`). -/
theorem C8_handle_lifetime_witness :
    (exec (reporting zero zero)).events =
      [Event.created (some ⟨⟨zero, zero⟩⟩), Event.located (some ⟨⟨zero, zero⟩⟩) (some ⟨zero, zero⟩),
       Event.released (some ⟨⟨zero, zero⟩⟩) true, Event.printed (coordLine ⟨zero, zero⟩),
       Event.returned 0] ∧
    (exec nullTrapping).events.take 3 =
      [Event.created none, Event.located none (some ⟨zero, zero⟩),
       Event.released none nullTrapping.releaseOfNullReturns] :=
  ⟨(C8_handle_lifetime (reporting zero zero)).2.2.2.1 ⟨⟨zero, zero⟩⟩ rfl,
   (C8_handle_lifetime nullTrapping).2.2.2.2.2 ⟨zero, zero⟩ rfl rfl⟩

/-! ## Output discipline (C5, C7) -/

/-- A double denotes zero only when its exponent and fraction fields are both
zero; the sign bit is free. -/
theorem toRat_eq_zero (d : CGFloat) (h : d.toRat = 0) : d.expo = 0 ∧ d.frac = 0 := by
  have hm : d.magnitude = 0 := by
    unfold CGFloat.toRat at h
    split_ifs at h
    · exact neg_eq_zero.mp h
    · exact h
  have hs : d.significand = 0 := by
    unfold CGFloat.magnitude at hm
    split_ifs at hm
    · have h0 : d.significand * 2 ^ (d.scale - 1075) = 0 := by exact_mod_cast hm
      rcases Nat.mul_eq_zero.mp h0 with h1 | h1
      · exact h1
      · exact absurd h1 (Nat.two_pow_pos _).ne'
    · have hD : ((2 ^ (1075 - d.scale) : Nat) : ℚ) ≠ 0 := by
        exact_mod_cast (Nat.two_pow_pos _).ne'
      rcases div_eq_zero_iff.mp hm with h1 | h1
      · exact_mod_cast h1
      · exact absurd h1 hD
  unfold CGFloat.significand at hs
  split_ifs at hs with he
  · exact ⟨he, hs⟩
  · have := Nat.two_pow_pos 52
    omega

/-- A zero of either sign prints as the digit `0`, preceded by a minus sign
when the sign bit is set. -/
theorem fmt_f0_of_toRat_eq_zero (d : CGFloat) (h : d.toRat = 0) :
    fmt_f0 d = (if d.sign then ['-'] else []) ++ ['0'] := by
  obtain ⟨he, hf⟩ := toRat_eq_zero d h
  have hr : roundedMagnitude d = 0 := by
    simp [roundedMagnitude, CGFloat.scale, CGFloat.significand, he, hf, roundHalfEven_zero]
  have hd : Nat.toDigits 10 0 = ['0'] := by decide
  simp only [fmt_f0, he, hr, hd]
  simp

/-- C5, counterexample: the reported position `(-0.0, 0.0)` has `x = 0` and
`y = 0`, yet standard output is `-0,0` and a newline, not `0,0`. -/
theorem C5_negative_zero_origin :
    negZero.toRat = 0 ∧ zero.toRat = 0 ∧
      (exec (reporting negZero zero)).stdout = ['-', '0', ',', '0', '\n'] ∧
      (exec (reporting negZero zero)).stdout ≠ ['0', ',', '0', '\n'] := by
  have hn : negZero.toRat = 0 := by
    simp [CGFloat.toRat, CGFloat.magnitude, negZero, CGFloat.scale, CGFloat.significand,
      -Nat.reducePow]
  have hz : zero.toRat = 0 := by
    simp [CGFloat.toRat, CGFloat.magnitude, zero, CGFloat.scale, CGFloat.significand,
      -Nat.reducePow]
  have hs : (exec (reporting negZero zero)).stdout = ['-', '0', ',', '0', '\n'] := by
    rw [stdout_of_valid (reporting negZero zero) ⟨⟨negZero, zero⟩⟩ rfl, coordLine,
      fmt_f0_of_toRat_eq_zero negZero hn, fmt_f0_of_toRat_eq_zero zero hz]
    decide
  refine ⟨hn, hz, hs, ?_⟩
  rw [hs]
  decide

/-- C5, amended: when the platform reports the pointer at the display origin,
`x = 0` and `y = 0`, each coordinate is printed as `0` when its sign bit is
clear and as `-0` when it is set (negative zero); standard output is exactly
the four characters `0,0` and a newline when both coordinates are `+0.0`. -/
theorem C5_origin (P : Platform) (e : CGEvent) (h : P.newEvent = some e)
    (hx : e.location.x.toRat = 0) (hy : e.location.y.toRat = 0) :
    (exec P).stdout =
        (if e.location.x.sign then ['-'] else []) ++ ['0', ','] ++
          (if e.location.y.sign then ['-'] else []) ++ ['0', '\n'] ∧
      (e.location.x.sign = false → e.location.y.sign = false →
        (exec P).stdout = ['0', ',', '0', '\n']) := by
  have hs : (exec P).stdout =
      (if e.location.x.sign then ['-'] else []) ++ ['0', ','] ++
        (if e.location.y.sign then ['-'] else []) ++ ['0', '\n'] := by
    rw [stdout_of_valid P e h, coordLine, fmt_f0_of_toRat_eq_zero _ hx,
      fmt_f0_of_toRat_eq_zero _ hy]
    simp
  refine ⟨hs, fun h1 h2 => ?_⟩
  rw [hs, h1, h2]
  rfl

/-- C5, amended, at the platform reporting `(+0.0, +0.0)`. -/
theorem C5_origin_witness :
    (exec (reporting zero zero)).stdout = ['0', ',', '0', '\n'] :=
  (C5_origin (reporting zero zero) ⟨⟨zero, zero⟩⟩ rfl
    (by simp [CGFloat.toRat, CGFloat.magnitude, zero, CGFloat.scale, CGFloat.significand,
      -Nat.reducePow])
    (by simp [CGFloat.toRat, CGFloat.magnitude, zero, CGFloat.scale, CGFloat.significand,
      -Nat.reducePow])).2 rfl rfl

/-- C7: in every run, at every point (after any number `n` of events),
standard output is either empty or the one complete line for the point the
query returned, and it is non-empty only after `CGEventGetLocation` has
returned that point; there is at most one write. -/
theorem C7_no_early_or_split_output (P : Platform) :
    (∀ n, stdoutOf ((exec P).events.take n) = [] ∨
        ∃ p, Event.located P.newEvent (some p) ∈ (exec P).events.take n ∧
          stdoutOf ((exec P).events.take n) = coordLine p) ∧
    ((exec P).events.filter Event.isPrinted).length ≤ 1 := by
  rcases exec_cases P with ⟨e, he, hx⟩ | ⟨p, he, hl, hr, hx⟩ | ⟨p, he, hl, hr, hx⟩ | ⟨he, hl, hx⟩
  · refine ⟨fun n => ?_, by simp [hx, Event.isPrinted]⟩
    rcases n with _ | _ | _ | _ | _ | n <;> simp [hx, he, stdoutOf]
  · refine ⟨fun n => ?_, by simp [hx, Event.isPrinted]⟩
    rcases n with _ | _ | _ | _ | _ | n <;> simp [hx, he, stdoutOf]
  · refine ⟨fun n => ?_, by simp [hx, Event.isPrinted]⟩
    rcases n with _ | _ | _ | _ | n <;> simp [hx, he, stdoutOf]
  · refine ⟨fun n => ?_, by simp [hx, Event.isPrinted]⟩
    rcases n with _ | _ | _ | n <;> simp [hx, he, stdoutOf]

end GetMousePos
